import Mathlib

/-!
Formal model of the changelog generator in src/main.rs.

Strings are modelled as lists of characters (the program only handles
ASCII-shaped data: hashes, conventional-commit subjects, URLs), so the
byte slice `&hash[0..8]` coincides with taking the first 8 characters.
Rust `split` on a non-empty pattern is modelled by dedicated structural
functions for the two patterns the program uses, `": "` and `","`.
Operations that can panic in Rust (index out of bounds, byte-slice out
of bounds) are modelled as `Option`-returning functions where `none`
stands for the panic.
-/

abbrev Str := List Char

/-- Model of the Rust struct `Commit` (src/main.rs, lines 13-19). -/
structure Commit where
  hash : Str
  message : Str
  author_name : Str
  author_email : Str
  date : Str
deriving DecidableEq, Repr

/-- Model of the Rust struct `Project` (src/main.rs, lines 21-26). -/
structure Project where
  name : Str
  commits : List Commit
  remote : Str
deriving DecidableEq, Repr

/-- Model of the Rust struct `ProjectList` (src/main.rs, lines 28-31). -/
structure ProjectList where
  projects : List Project
deriving DecidableEq, Repr

/-- Rust `s.split(": ")`: split on each leftmost non-overlapping
occurrence of the two-character pattern `": "`. -/
def splitOnColonSpace : Str → List Str
  | [] => [[]]
  | [c] => [[c]]
  | c1 :: c2 :: cs =>
    if c1 == ':' && c2 == ' ' then
      [] :: splitOnColonSpace cs
    else
      match splitOnColonSpace (c2 :: cs) with
      | [] => [[c1]]
      | r :: rs => (c1 :: r) :: rs

/-- Rust `s.split(",")`: split on each occurrence of `,`. -/
def splitOnComma : Str → List Str
  | [] => [[]]
  | c :: cs =>
    if c == ',' then
      [] :: splitOnComma cs
    else
      match splitOnComma cs with
      | [] => [[c]]
      | r :: rs => (c :: r) :: rs

/-- Whether the two-character pattern `": "` occurs in `s`. -/
def hasColonSpace : Str → Bool
  | [] => false
  | [_] => false
  | c1 :: c2 :: cs => (c1 == ':' && c2 == ' ') || hasColonSpace (c2 :: cs)

/-- Rust `s.starts_with(p)`. -/
def startsWith : Str → Str → Bool
  | _, [] => true
  | [], _ :: _ => false
  | c :: cs, p :: ps => c == p && startsWith cs ps

/-- One iteration of the loop body of `separate_features_and_bug_fixes`
(src/main.rs, lines 152-174): the pair of texts appended to
(features, bugfixes) for one commit, or `none` when the byte slice
`&commit.hash[0..8]` would panic (hash shorter than 8 characters, and
the slice is only evaluated in the `feat:` / `fix:` branches). -/
def classify_commit (remote : Str) (c : Commit) : Option (Str × Str) :=
  match splitOnColonSpace c.message with
  | [_, message] =>
    let commit_link := remote ++ "/commits/".toList ++ c.hash
    if startsWith c.message "feat:".toList then
      if 8 ≤ c.hash.length then
        some (" - ".toList ++ message ++ " [#".toList ++ c.hash.take 8 ++
          "](".toList ++ commit_link ++ ")\n".toList, [])
      else none
    else if startsWith c.message "fix:".toList then
      if 8 ≤ c.hash.length then
        some ([], " - ".toList ++ message ++ " [#".toList ++ c.hash.take 8 ++
          "](".toList ++ commit_link ++ ")\n".toList)
      else none
    else
      some ([], [])
  | _ => some ([], [])

/-- The loop of `separate_features_and_bug_fixes`, accumulating the two
output texts; `none` when some iteration panics. -/
def separateAux (remote : Str) : List Commit → Str × Str → Option (Str × Str)
  | [], acc => some acc
  | c :: cs, (f, b) =>
    match classify_commit remote c with
    | none => none
    | some (df, db) => separateAux remote cs (f ++ df, b ++ db)

/-- Model of `separate_features_and_bug_fixes` (src/main.rs, lines
148-176): returns `(project_features, project_bug_fixes)`, or `none`
when a hash slice panics. -/
def separate_features_and_bug_fixes (project : Project) : Option (Str × Str) :=
  separateAux project.remote project.commits ([], [])

/-- The text appended to the changelog for one project by the loop body
of `generate_changelog` (src/main.rs, lines 131-142): the `## name`
header, the Bugfixes section when non-empty, the Features section when
non-empty, and the separating blank line. -/
def projectBlock (p : Project) : Option Str :=
  match separate_features_and_bug_fixes p with
  | none => none
  | some (feats, bugs) =>
    some ("## ".toList ++ p.name ++ "\n".toList ++
      (if bugs.isEmpty then [] else "### :bug: Bugfixes\n".toList ++ bugs) ++
      (if feats.isEmpty then [] else "### :rocket: Features\n".toList ++ feats) ++
      "\n".toList)

/-- The loop of `generate_changelog` over the project list, appending
each block of text to the accumulated document. -/
def changelogAux : List Project → Str → Option Str
  | [], acc => some acc
  | p :: ps, acc =>
    match projectBlock p with
    | none => none
    | some blk => changelogAux ps (acc ++ blk)

/-- Model of `generate_changelog` (src/main.rs, lines 119-146) up to the
final file write: the full document text. The date (`Local::now`
formatted `%Y-%m-%d`) is taken as a parameter since it is the single
environment input of the function. -/
def generate_changelog (date : Str) (pl : ProjectList) : Option Str :=
  changelogAux pl.projects ("# Changelog for ".toList ++ date ++ "\n\n".toList)

/-- The per-line body of the log loop in `process_projects`
(src/main.rs, lines 99-111), applied to the comma-split fields of one
line. `none` models the index-out-of-bounds panic: `commit[2]` is read
first (for the author comparison), and `commit[3]`, `commit[4]` are read
only when the author matches. `some none` means the line is skipped,
`some (some c)` means commit `c` is retained. -/
def process_fields (author_name : Str) (fields : List Str) : Option (Option Commit) :=
  match fields with
  | f0 :: f1 :: f2 :: rest =>
    if f2 = author_name then
      match rest with
      | f3 :: f4 :: _ => some (some ⟨f0, f1, f2, f3, f4⟩)
      | _ => none
    else
      some none
  | _ => none

/-- One iteration of the log loop in `process_projects`: split the raw
line on `,` and process the fields. -/
def process_line (author_name line : Str) : Option (Option Commit) :=
  process_fields author_name (splitOnComma line)

/-- The whole log loop of `process_projects` for one project: the list
of retained commits in line order, or `none` when some line panics. -/
def process_lines (author_name : Str) : List Str → Option (List Commit)
  | [] => some []
  | l :: ls =>
    match process_line author_name l with
    | none => none
    | some none => process_lines author_name ls
    | some (some c) => (process_lines author_name ls).map (fun cs => c :: cs)

/-- The features text contributed by one commit (empty for bugfix /
dropped / panicking commits). -/
def featPart (remote : Str) (c : Commit) : Str :=
  ((classify_commit remote c).getD ([], [])).1

/-- The bugfixes text contributed by one commit (empty for feature /
dropped / panicking commits). -/
def fixPart (remote : Str) (c : Commit) : Str :=
  ((classify_commit remote c).getD ([], [])).2

/-! ### Helper lemmas about the split and append machinery -/

lemma splitOnColonSpace_of_no_sep : ∀ (X : Str), hasColonSpace X = false →
    splitOnColonSpace X = [X]
  | [], _ => rfl
  | [_], _ => rfl
  | c1 :: c2 :: cs, h => by
    rw [hasColonSpace, Bool.or_eq_false_iff] at h
    rw [splitOnColonSpace, if_neg (by simp [h.1]),
      splitOnColonSpace_of_no_sep (c2 :: cs) h.2]

lemma splitOnColonSpace_feat (X : Str) (hX : hasColonSpace X = false) :
    splitOnColonSpace ("feat: ".toList ++ X) = ["feat".toList, X] := by
  have hX2 := splitOnColonSpace_of_no_sep X hX
  have h1 : "feat: ".toList ++ X = 'f' :: 'e' :: 'a' :: 't' :: ':' :: ' ' :: X := rfl
  have h2 : "feat".toList = ['f', 'e', 'a', 't'] := rfl
  rw [h1, h2]
  simp +decide [splitOnColonSpace, hX2]

lemma splitOnColonSpace_fix (X : Str) (hX : hasColonSpace X = false) :
    splitOnColonSpace ("fix: ".toList ++ X) = ["fix".toList, X] := by
  have hX2 := splitOnColonSpace_of_no_sep X hX
  have h1 : "fix: ".toList ++ X = 'f' :: 'i' :: 'x' :: ':' :: ' ' :: X := rfl
  have h2 : "fix".toList = ['f', 'i', 'x'] := rfl
  rw [h1, h2]
  simp +decide [splitOnColonSpace, hX2]

lemma startsWith_feat (X : Str) :
    startsWith ("feat: ".toList ++ X) "feat:".toList = true := rfl

lemma startsWith_fix (X : Str) :
    startsWith ("fix: ".toList ++ X) "fix:".toList = true := rfl

lemma startsWith_fix_not_feat (X : Str) :
    startsWith ("fix: ".toList ++ X) "feat:".toList = false := rfl

lemma classify_commit_feat (remote : Str) (c : Commit) (X : Str)
    (hm : c.message = "feat: ".toList ++ X) (hX : hasColonSpace X = false)
    (hlen : 8 ≤ c.hash.length) :
    classify_commit remote c =
      some (" - ".toList ++ X ++ " [#".toList ++ c.hash.take 8 ++ "](".toList ++
        (remote ++ "/commits/".toList ++ c.hash) ++ ")\n".toList, []) := by
  have hsplit : splitOnColonSpace c.message = ["feat".toList, X] := by
    rw [hm]; exact splitOnColonSpace_feat X hX
  simp only [classify_commit, hm, splitOnColonSpace_feat X hX, startsWith_feat, if_true]
  rw [if_pos hlen]

lemma classify_commit_fix (remote : Str) (c : Commit) (X : Str)
    (hm : c.message = "fix: ".toList ++ X) (hX : hasColonSpace X = false)
    (hlen : 8 ≤ c.hash.length) :
    classify_commit remote c =
      some ([], " - ".toList ++ X ++ " [#".toList ++ c.hash.take 8 ++ "](".toList ++
        (remote ++ "/commits/".toList ++ c.hash) ++ ")\n".toList) := by
  have hsplit : splitOnColonSpace c.message = ["fix".toList, X] := by
    rw [hm]; exact splitOnColonSpace_fix X hX
  simp only [classify_commit, hm, splitOnColonSpace_fix X hX, startsWith_fix,
    startsWith_fix_not_feat, if_true, Bool.false_eq_true, if_false]
  rw [if_pos hlen]

/-- C1 (amended): for every commit whose message is exactly `"feat: X"`
where the text `X` contains no `": "` substring and whose hash has at
least 8 characters, the classifier produces the formatted line
`" - X [#{hash[0..8]}]({remote}/commits/{hash})\n"` for the features
text and nothing for the bugfixes text — so processing the commit
appends that line to the accumulated features and leaves the
accumulated bugfixes unchanged; symmetrically for `"fix: X"`. -/
theorem separate_feat_fix_append (remote X : Str) (c : Commit) (cs : List Commit)
    (f b : Str) (hX : hasColonSpace X = false) (hlen : 8 ≤ c.hash.length) :
    (c.message = "feat: ".toList ++ X →
      classify_commit remote c =
        some (" - ".toList ++ X ++ " [#".toList ++ c.hash.take 8 ++ "](".toList ++
          (remote ++ "/commits/".toList ++ c.hash) ++ ")\n".toList, []) ∧
      separateAux remote (c :: cs) (f, b) =
        separateAux remote cs
          (f ++ (" - ".toList ++ X ++ " [#".toList ++ c.hash.take 8 ++ "](".toList ++
            (remote ++ "/commits/".toList ++ c.hash) ++ ")\n".toList), b)) ∧
    (c.message = "fix: ".toList ++ X →
      classify_commit remote c =
        some ([], " - ".toList ++ X ++ " [#".toList ++ c.hash.take 8 ++ "](".toList ++
          (remote ++ "/commits/".toList ++ c.hash) ++ ")\n".toList) ∧
      separateAux remote (c :: cs) (f, b) =
        separateAux remote cs
          (f, b ++ (" - ".toList ++ X ++ " [#".toList ++ c.hash.take 8 ++ "](".toList ++
            (remote ++ "/commits/".toList ++ c.hash) ++ ")\n".toList))) := by
  constructor
  · intro hm
    have hc := classify_commit_feat remote c X hm hX hlen
    exact ⟨hc, by simp [separateAux, hc]⟩
  · intro hm
    have hc := classify_commit_fix remote c X hm hX hlen
    exact ⟨hc, by simp [separateAux, hc]⟩

/-- C1 counterexample: the message `"feat: a: b"` is exactly
`"feat: "` followed by the text `"a: b"`, yet the classifier drops it
(its split on `": "` has three parts), so the claimed line is never
appended to the features sequence: the classifier yields
`(empty, empty)` for the whole project, not the claimed line. -/
theorem separate_feat_colon_dropped :
    separate_features_and_bug_fixes
        ⟨"alpha".toList,
         [⟨"abcdef1234".toList, "feat: a: b".toList, "a".toList, "e".toList,
           "d".toList⟩],
         "r".toList⟩ = some ([], []) ∧
    separate_features_and_bug_fixes
        ⟨"alpha".toList,
         [⟨"abcdef1234".toList, "feat: a: b".toList, "a".toList, "e".toList,
           "d".toList⟩],
         "r".toList⟩ ≠
      some (" - a: b [#abcdef12](r/commits/abcdef1234)\n".toList, []) := by
  constructor
  · decide
  · decide

/-- Witness for the amended C1 at concrete inputs. -/
theorem separate_feat_fix_append_witness :
    (classify_commit "r".toList
        ⟨"abcdef1234".toList, "feat: add login".toList, "a".toList, "e".toList,
          "d".toList⟩ =
      some (" - ".toList ++ "add login".toList ++ " [#".toList ++
        ("abcdef1234".toList).take 8 ++ "](".toList ++
        ("r".toList ++ "/commits/".toList ++ "abcdef1234".toList) ++
        ")\n".toList, [])) ∧
    (classify_commit "r".toList
        ⟨"abcdef1234".toList, "fix: oops".toList, "a".toList, "e".toList,
          "d".toList⟩ =
      some ([], " - ".toList ++ "oops".toList ++ " [#".toList ++
        ("abcdef1234".toList).take 8 ++ "](".toList ++
        ("r".toList ++ "/commits/".toList ++ "abcdef1234".toList) ++
        ")\n".toList)) :=
  ⟨((separate_feat_fix_append "r".toList "add login".toList
      ⟨"abcdef1234".toList, "feat: add login".toList, "a".toList, "e".toList,
        "d".toList⟩ [] [] [] (by decide) (by decide)).1 rfl).1,
   ((separate_feat_fix_append "r".toList "oops".toList
      ⟨"abcdef1234".toList, "fix: oops".toList, "a".toList, "e".toList,
        "d".toList⟩ [] [] [] (by decide) (by decide)).2 rfl).1⟩

/-- C2: a commit whose message has no `": "` substring, or whose split on
`": "` does not have exactly two parts, or which starts with neither
`"feat:"` nor `"fix:"`, contributes nothing to either output text, and
processing continues normally with the remaining commits (the
accumulated pair is unchanged, no error value is produced). -/
theorem classify_drop_silent (remote : Str) (c : Commit) (cs : List Commit)
    (f b : Str)
    (h : hasColonSpace c.message = false ∨
      (splitOnColonSpace c.message).length ≠ 2 ∨
      (startsWith c.message "feat:".toList = false ∧
       startsWith c.message "fix:".toList = false)) :
    classify_commit remote c = some ([], []) ∧
    separateAux remote (c :: cs) (f, b) = separateAux remote cs (f, b) := by
  have h2 : (splitOnColonSpace c.message).length ≠ 2 ∨
      (startsWith c.message "feat:".toList = false ∧
       startsWith c.message "fix:".toList = false) := by
    rcases h with h | h | h
    · rw [splitOnColonSpace_of_no_sep c.message h]
      exact Or.inl (by simp)
    · exact Or.inl h
    · exact Or.inr h
  have hc : classify_commit remote c = some ([], []) := by
    unfold classify_commit
    split
    · rename_i heq
      rcases h2 with h2 | h2
      · rw [heq] at h2; simp at h2
      · have hf : startsWith c.message ['f', 'e', 'a', 't', ':'] = false := h2.1
        have hx : startsWith c.message ['f', 'i', 'x', ':'] = false := h2.2
        simp [hf, hx]
    · rfl
  exact ⟨hc, by simp [separateAux, hc]⟩

/-- Witness for C2 at a concrete dropped commit (`"chore: cleanup"`). -/
theorem classify_drop_silent_witness :
    classify_commit "r".toList
        ⟨"2222222222".toList, "chore: cleanup".toList, "a".toList, "e".toList,
          "d".toList⟩ = some ([], []) ∧
    separateAux "r".toList
        [⟨"2222222222".toList, "chore: cleanup".toList, "a".toList, "e".toList,
          "d".toList⟩] ([], []) =
      separateAux "r".toList [] ([], []) :=
  classify_drop_silent "r".toList
    ⟨"2222222222".toList, "chore: cleanup".toList, "a".toList, "e".toList,
      "d".toList⟩ [] [] []
    (Or.inr (Or.inr (by decide)))

/-- C3: for the project "alpha" with remote "https://example.com/alpha"
and the three scenario commits, the per-project block is exactly the
claimed text, followed by the project-separating blank line. -/
theorem alpha_project_block :
    projectBlock
        ⟨"alpha".toList,
         [⟨"abcdef1234".toList, "feat: add login".toList, "a".toList, "e".toList,
           "d".toList⟩,
          ⟨"1111111111".toList, "fix: null pointer".toList, "a".toList,
           "e".toList, "d".toList⟩,
          ⟨"2222222222".toList, "chore: cleanup".toList, "a".toList, "e".toList,
           "d".toList⟩],
         "https://example.com/alpha".toList⟩ =
      some (("## alpha\n### :bug: Bugfixes\n - null pointer [#11111111](https://example.com/alpha/commits/1111111111)\n### :rocket: Features\n - add login [#abcdef12](https://example.com/alpha/commits/abcdef1234)\n").toList ++
        "\n".toList) := by
  set_option maxRecDepth 10000 in decide

lemma classify_commit_isSome (remote : Str) (c : Commit)
    (h : (splitOnColonSpace c.message).length = 2 →
      (startsWith c.message "feat:".toList = true ∨
       startsWith c.message "fix:".toList = true) →
      8 ≤ c.hash.length) :
    (classify_commit remote c).isSome = true := by
  unfold classify_commit
  split
  · rename_i heq
    have hlen2 : (splitOnColonSpace c.message).length = 2 := by rw [heq]; rfl
    cases hf : startsWith c.message ['f', 'e', 'a', 't', ':'] with
    | true =>
      have h8 : 8 ≤ c.hash.length := h hlen2 (Or.inl hf)
      simp [hf, h8]
    | false =>
      cases hx : startsWith c.message ['f', 'i', 'x', ':'] with
      | true =>
        have h8 : 8 ≤ c.hash.length := h hlen2 (Or.inr hx)
        simp [hf, hx, h8]
      | false => simp [hf, hx]
  · rfl

lemma separateAux_isSome (remote : Str) : ∀ (cs : List Commit) (acc : Str × Str),
    (∀ c ∈ cs, (splitOnColonSpace c.message).length = 2 →
      (startsWith c.message "feat:".toList = true ∨
       startsWith c.message "fix:".toList = true) →
      8 ≤ c.hash.length) →
    (separateAux remote cs acc).isSome = true
  | [], _, _ => rfl
  | c :: cs, (f, b), h => by
    have hc := classify_commit_isSome remote c (h c (by simp))
    rcases hval : classify_commit remote c with _ | ⟨df, db⟩
    · rw [hval] at hc; simp at hc
    · simp only [separateAux, hval]
      exact separateAux_isSome remote cs (f ++ df, b ++ db)
        (fun c2 hc2 => h c2 (by simp [hc2]))

/-- C4: a commit that survives classification (two-part split, `feat:` or
`fix:` start) but whose hash has fewer than 8 characters makes the
classifier take the panic branch (`none`) rather than silently
truncating; and when every such commit of a project has a hash of at
least 8 characters, the slice is in bounds and the classifier returns
normally on the whole project. -/
theorem classify_short_hash_panics (remote : Str) (c : Commit) (p : Project) :
    ((splitOnColonSpace c.message).length = 2 →
     (startsWith c.message "feat:".toList = true ∨
      startsWith c.message "fix:".toList = true) →
     c.hash.length < 8 →
     classify_commit remote c = none) ∧
    ((∀ c2 ∈ p.commits, (splitOnColonSpace c2.message).length = 2 →
       (startsWith c2.message "feat:".toList = true ∨
        startsWith c2.message "fix:".toList = true) →
       8 ≤ c2.hash.length) →
     (separate_features_and_bug_fixes p).isSome = true) := by
  constructor
  · intro hlen2 hpre hshort
    have hn : ¬ 8 ≤ c.hash.length := Nat.not_le.mpr hshort
    rcases hsp : splitOnColonSpace c.message with _ | ⟨a, _ | ⟨m, _ | ⟨x, rest⟩⟩⟩
    · rw [hsp] at hlen2; simp at hlen2
    · rw [hsp] at hlen2; simp at hlen2
    · simp only [classify_commit, hsp]
      rcases hpre with hpre | hpre
      · have hf : startsWith c.message ['f', 'e', 'a', 't', ':'] = true := hpre
        simp [hf, hn]
      · have hx : startsWith c.message ['f', 'i', 'x', ':'] = true := hpre
        cases hff : startsWith c.message ['f', 'e', 'a', 't', ':'] <;>
          simp [hff, hx, hn]
    · rw [hsp] at hlen2; simp at hlen2
  · intro hall
    exact separateAux_isSome p.remote p.commits ([], []) hall

/-- Witness for C4 at concrete inputs: a `feat:` commit with a 3-character
hash panics; the scenario project with 10-character hashes is processed
totally. -/
theorem classify_short_hash_panics_witness :
    classify_commit "r".toList
        ⟨"abc".toList, "feat: x".toList, "a".toList, "e".toList, "d".toList⟩ =
      none ∧
    (separate_features_and_bug_fixes
        ⟨"alpha".toList,
         [⟨"abcdef1234".toList, "feat: add login".toList, "a".toList, "e".toList,
           "d".toList⟩,
          ⟨"1111111111".toList, "fix: null pointer".toList, "a".toList,
           "e".toList, "d".toList⟩],
         "r".toList⟩).isSome = true :=
  ⟨(classify_short_hash_panics "r".toList
      ⟨"abc".toList, "feat: x".toList, "a".toList, "e".toList, "d".toList⟩
      ⟨"alpha".toList, [], "r".toList⟩).1 (by decide) (Or.inl (by decide))
      (by decide),
   (classify_short_hash_panics "r".toList
      ⟨"abc".toList, "feat: x".toList, "a".toList, "e".toList, "d".toList⟩
      ⟨"alpha".toList,
       [⟨"abcdef1234".toList, "feat: add login".toList, "a".toList, "e".toList,
         "d".toList⟩,
        ⟨"1111111111".toList, "fix: null pointer".toList, "a".toList,
         "e".toList, "d".toList⟩],
       "r".toList⟩).2 (by decide)⟩

lemma separateAux_eq_join (remote : Str) : ∀ (cs : List Commit) (f0 b0 f b : Str),
    separateAux remote cs (f0, b0) = some (f, b) →
    f = f0 ++ (cs.map (featPart remote)).flatten ∧
    b = b0 ++ (cs.map (fixPart remote)).flatten
  | [], f0, b0, f, b, h => by
    simp only [separateAux, Option.some.injEq, Prod.mk.injEq] at h
    simp [← h.1, ← h.2]
  | c :: cs, f0, b0, f, b, h => by
    rcases hval : classify_commit remote c with _ | ⟨df, db⟩
    · simp only [separateAux, hval] at h
      exact absurd h (by simp)
    · simp only [separateAux, hval] at h
      obtain ⟨h1, h2⟩ := separateAux_eq_join remote cs (f0 ++ df) (b0 ++ db) f b h
      constructor
      · rw [h1]; simp [featPart, hval, List.append_assoc]
      · rw [h2]; simp [fixPart, hval, List.append_assoc]

/-- C5: when the classifier returns normally, the features text is the
in-order concatenation of the per-commit feature contributions and the
bugfixes text is the in-order concatenation of the per-commit bugfix
contributions — so two commits classified into the same category keep
their relative input order in that category's output. -/
theorem separate_preserves_order (p : Project) (f b : Str)
    (h : separate_features_and_bug_fixes p = some (f, b)) :
    f = (p.commits.map (featPart p.remote)).flatten ∧
    b = (p.commits.map (fixPart p.remote)).flatten := by
  have h2 := separateAux_eq_join p.remote p.commits [] [] f b h
  simpa using h2

/-- Witness for C5 at the concrete scenario project. -/
theorem separate_preserves_order_witness :
    " - add login [#abcdef12](r/commits/abcdef1234)\n".toList =
      (([⟨"abcdef1234".toList, "feat: add login".toList, "a".toList, "e".toList,
          "d".toList⟩,
         ⟨"1111111111".toList, "fix: null pointer".toList, "a".toList,
          "e".toList, "d".toList⟩,
         ⟨"2222222222".toList, "chore: cleanup".toList, "a".toList, "e".toList,
          "d".toList⟩] : List Commit).map (featPart "r".toList)).flatten ∧
    " - null pointer [#11111111](r/commits/1111111111)\n".toList =
      (([⟨"abcdef1234".toList, "feat: add login".toList, "a".toList, "e".toList,
          "d".toList⟩,
         ⟨"1111111111".toList, "fix: null pointer".toList, "a".toList,
          "e".toList, "d".toList⟩,
         ⟨"2222222222".toList, "chore: cleanup".toList, "a".toList, "e".toList,
          "d".toList⟩] : List Commit).map (fixPart "r".toList)).flatten :=
  separate_preserves_order
    ⟨"alpha".toList,
     [⟨"abcdef1234".toList, "feat: add login".toList, "a".toList, "e".toList,
       "d".toList⟩,
      ⟨"1111111111".toList, "fix: null pointer".toList, "a".toList, "e".toList,
       "d".toList⟩,
      ⟨"2222222222".toList, "chore: cleanup".toList, "a".toList, "e".toList,
       "d".toList⟩],
     "r".toList⟩
    " - add login [#abcdef12](r/commits/abcdef1234)\n".toList
    " - null pointer [#11111111](r/commits/1111111111)\n".toList
    (by set_option maxRecDepth 8000 in decide)

lemma isEmpty_false_of_ne_nil {l : Str} (h : l ≠ []) : l.isEmpty = false := by
  cases l with
  | nil => exact absurd rfl h
  | cons c cs => rfl

/-- C6: in a project's block, the Bugfixes header and entries are present
exactly when at least one bugfix entry exists, the Features header and
entries exactly when at least one feature entry exists, and when both
are present the Bugfixes section comes before the Features section;
with neither, the block is only the header and the blank line. -/
theorem project_sections_iff (p : Project) (f b : Str)
    (h : separate_features_and_bug_fixes p = some (f, b)) :
    (b ≠ [] → f ≠ [] → projectBlock p =
      some ("## ".toList ++ p.name ++ "\n".toList ++
        ("### :bug: Bugfixes\n".toList ++ b) ++
        ("### :rocket: Features\n".toList ++ f) ++ "\n".toList)) ∧
    (b ≠ [] → f = [] → projectBlock p =
      some ("## ".toList ++ p.name ++ "\n".toList ++
        ("### :bug: Bugfixes\n".toList ++ b) ++ "\n".toList)) ∧
    (b = [] → f ≠ [] → projectBlock p =
      some ("## ".toList ++ p.name ++ "\n".toList ++
        ("### :rocket: Features\n".toList ++ f) ++ "\n".toList)) ∧
    (b = [] → f = [] → projectBlock p =
      some ("## ".toList ++ p.name ++ "\n".toList ++ "\n".toList)) := by
  refine ⟨?_, ?_, ?_, ?_⟩
  · intro hb hf
    simp [projectBlock, h, isEmpty_false_of_ne_nil hb,
      isEmpty_false_of_ne_nil hf, List.append_assoc]
  · intro hb hf
    subst hf
    simp [projectBlock, h, isEmpty_false_of_ne_nil hb, List.append_assoc]
  · intro hb hf
    subst hb
    simp [projectBlock, h, isEmpty_false_of_ne_nil hf, List.append_assoc]
  · intro hb hf
    subst hb; subst hf
    simp [projectBlock, h]

/-- Witness for C6 at the concrete scenario project (both sections). -/
theorem project_sections_iff_witness :
    projectBlock
        ⟨"alpha".toList,
         [⟨"abcdef1234".toList, "feat: add login".toList, "a".toList, "e".toList,
           "d".toList⟩,
          ⟨"1111111111".toList, "fix: null pointer".toList, "a".toList,
           "e".toList, "d".toList⟩],
         "r".toList⟩ =
      some ("## ".toList ++ "alpha".toList ++ "\n".toList ++
        ("### :bug: Bugfixes\n".toList ++
          " - null pointer [#11111111](r/commits/1111111111)\n".toList) ++
        ("### :rocket: Features\n".toList ++
          " - add login [#abcdef12](r/commits/abcdef1234)\n".toList) ++
        "\n".toList) :=
  (project_sections_iff
    ⟨"alpha".toList,
     [⟨"abcdef1234".toList, "feat: add login".toList, "a".toList, "e".toList,
       "d".toList⟩,
      ⟨"1111111111".toList, "fix: null pointer".toList, "a".toList, "e".toList,
       "d".toList⟩],
     "r".toList⟩
    " - add login [#abcdef12](r/commits/abcdef1234)\n".toList
    " - null pointer [#11111111](r/commits/1111111111)\n".toList
    (by set_option maxRecDepth 8000 in decide)).1 (by decide) (by decide)

lemma changelogAux_acc_grows : ∀ (ps : List Project) (acc doc : Str),
    changelogAux ps acc = some doc → ∃ t, doc = acc ++ t
  | [], acc, doc, h => by
    simp only [changelogAux, Option.some.injEq] at h
    exact ⟨[], by simp [← h]⟩
  | p :: ps, acc, doc, h => by
    rcases hpb : projectBlock p with _ | blk
    · simp only [changelogAux, hpb] at h
      exact absurd h (by simp)
    · simp only [changelogAux, hpb] at h
      obtain ⟨t, ht⟩ := changelogAux_acc_grows ps (acc ++ blk) doc h
      exact ⟨blk ++ t, by simp [ht, List.append_assoc]⟩

lemma changelogAux_mem_block : ∀ (ps : List Project) (acc doc : Str) (p : Project),
    p ∈ ps → changelogAux ps acc = some doc →
    ∃ blk l r, projectBlock p = some blk ∧ doc = l ++ (blk ++ r)
  | [], _, _, _, hmem, _ => absurd hmem (List.not_mem_nil _)
  | q :: ps, acc, doc, p, hmem, h => by
    rcases hpb : projectBlock q with _ | blk
    · simp only [changelogAux, hpb] at h
      exact absurd h (by simp)
    · simp only [changelogAux, hpb] at h
      rcases List.mem_cons.mp hmem with heq | hmem2
      · subst heq
        obtain ⟨t, ht⟩ := changelogAux_acc_grows ps (acc ++ blk) doc h
        exact ⟨blk, acc, t, hpb, by simp [ht, List.append_assoc]⟩
      · exact changelogAux_mem_block ps (acc ++ blk) doc p hmem2 h

lemma projectBlock_head (p : Project) (blk : Str) (h : projectBlock p = some blk) :
    ∃ t, blk = ("## ".toList ++ p.name ++ "\n".toList) ++ t := by
  rcases hsep : separate_features_and_bug_fixes p with _ | ⟨f, b⟩
  · simp [projectBlock, hsep] at h
  · simp only [projectBlock, hsep, Option.some.injEq] at h
    refine ⟨(if b.isEmpty then [] else "### :bug: Bugfixes\n".toList ++ b) ++
      ((if f.isEmpty then [] else "### :rocket: Features\n".toList ++ f) ++
        "\n".toList), ?_⟩
    rw [← h]; simp [List.append_assoc]

lemma projectBlock_empty (p : Project)
    (h : separate_features_and_bug_fixes p = some ([], [])) :
    projectBlock p = some ("## ".toList ++ p.name ++ "\n".toList ++ "\n".toList) := by
  simp [projectBlock, h]

/-- C7: every project of the list — including one with no features and no
bugfixes — contributes its `"## name\n"` header line to the assembled
document; a project with neither category contributes exactly the header
followed by the blank line and nothing else, and no project is omitted. -/
theorem changelog_contains_all_projects (date : Str) (pl : ProjectList)
    (doc : Str) (p : Project) (hdoc : generate_changelog date pl = some doc)
    (hp : p ∈ pl.projects) :
    (∃ l r, doc = l ++ (("## ".toList ++ p.name ++ "\n".toList) ++ r)) ∧
    (separate_features_and_bug_fixes p = some ([], []) →
      projectBlock p =
        some ("## ".toList ++ p.name ++ "\n".toList ++ "\n".toList) ∧
      ∃ l r, doc =
        l ++ (("## ".toList ++ p.name ++ "\n".toList ++ "\n".toList) ++ r)) := by
  obtain ⟨blk, l, r, hpb, hblk⟩ :=
    changelogAux_mem_block pl.projects _ doc p hp hdoc
  obtain ⟨t, ht⟩ := projectBlock_head p blk hpb
  constructor
  · exact ⟨l, t ++ r, by rw [hblk, ht]; simp [List.append_assoc]⟩
  · intro hsep
    have he := projectBlock_empty p hsep
    refine ⟨he, ?_⟩
    rw [hpb] at he
    have hblk2 : blk = "## ".toList ++ p.name ++ "\n".toList ++ "\n".toList :=
      Option.some.inj he
    exact ⟨l, r, by rw [hblk, hblk2]⟩

/-- Witness for C7: a one-project list whose project has no commits. -/
theorem changelog_contains_all_projects_witness :
    (∃ l r, ("# Changelog for 2026-10-12\n\n## beta\n\n").toList =
      l ++ (("## ".toList ++ "beta".toList ++ "\n".toList) ++ r)) ∧
    (projectBlock ⟨"beta".toList, [], "r".toList⟩ =
        some ("## ".toList ++ "beta".toList ++ "\n".toList ++ "\n".toList) ∧
      ∃ l r, ("# Changelog for 2026-10-12\n\n## beta\n\n").toList =
        l ++ (("## ".toList ++ "beta".toList ++ "\n".toList ++ "\n".toList) ++ r)) :=
  ⟨(changelog_contains_all_projects "2026-10-12".toList
      ⟨[⟨"beta".toList, [], "r".toList⟩]⟩
      ("# Changelog for 2026-10-12\n\n## beta\n\n").toList
      ⟨"beta".toList, [], "r".toList⟩ (by decide) (by decide)).1,
   (changelog_contains_all_projects "2026-10-12".toList
      ⟨[⟨"beta".toList, [], "r".toList⟩]⟩
      ("# Changelog for 2026-10-12\n\n## beta\n\n").toList
      ⟨"beta".toList, [], "r".toList⟩ (by decide) (by decide)).2 (by decide)⟩

/-- C8: for a fixed generation date and project list the assembly is
deterministic (two evaluations are byte-identical), and the classifier
is a pure function of the project data it consumes: its result does not
depend on the project name. -/
theorem assembler_deterministic (date : Str) (pl : ProjectList)
    (n n2 r : Str) (cs : List Commit) :
    generate_changelog date pl = generate_changelog date pl ∧
    separate_features_and_bug_fixes ⟨n, cs, r⟩ =
      separate_features_and_bug_fixes ⟨n2, cs, r⟩ :=
  ⟨rfl, rfl⟩

/-- C9: a log line with fewer than three comma-separated fields hits the
index-out-of-bounds panic at the author comparison; one with a matching
author but fewer than five fields hits the panic while the commit record
is built; and with at least five fields every index 0..4 is in bounds
and the per-line processing returns normally. -/
theorem process_line_bounds (author line : Str) :
    ((splitOnComma line).length < 3 → process_line author line = none) ∧
    (∀ f0 f1 f2 rest, splitOnComma line = f0 :: f1 :: f2 :: rest →
      f2 = author → rest.length < 2 → process_line author line = none) ∧
    (5 ≤ (splitOnComma line).length →
      (process_line author line).isSome = true) := by
  refine ⟨?_, ?_, ?_⟩
  · intro hlen
    rcases hsp : splitOnComma line with _ | ⟨f0, _ | ⟨f1, _ | ⟨f2, rest⟩⟩⟩
    · simp [process_line, process_fields, hsp]
    · simp [process_line, process_fields, hsp]
    · simp [process_line, process_fields, hsp]
    · rw [hsp] at hlen; simp at hlen; omega
  · intro f0 f1 f2 rest hsp hauth hlt
    subst hauth
    rcases rest with _ | ⟨f3, _ | ⟨f4, rest2⟩⟩
    · simp [process_line, process_fields, hsp]
    · simp [process_line, process_fields, hsp]
    · simp only [List.length_cons] at hlt; omega
  · intro hlen
    rcases hsp : splitOnComma line
      with _ | ⟨f0, _ | ⟨f1, _ | ⟨f2, _ | ⟨f3, _ | ⟨f4, rest⟩⟩⟩⟩⟩
    · rw [hsp] at hlen
      simp only [List.length_nil, List.length_cons] at hlen; omega
    · rw [hsp] at hlen
      simp only [List.length_nil, List.length_cons] at hlen; omega
    · rw [hsp] at hlen
      simp only [List.length_nil, List.length_cons] at hlen; omega
    · rw [hsp] at hlen
      simp only [List.length_nil, List.length_cons] at hlen; omega
    · rw [hsp] at hlen
      simp only [List.length_nil, List.length_cons] at hlen; omega
    · by_cases hf : f2 = author <;>
        simp [process_line, process_fields, hsp, hf]

/-- Witness for C9 at concrete lines: two fields; four fields with a
matching author; five well-formed fields. -/
theorem process_line_bounds_witness :
    process_line "alice".toList "a,b".toList = none ∧
    process_line "alice".toList "h,s,alice,e".toList = none ∧
    (process_line "alice".toList "h,s,alice,e,d".toList).isSome = true :=
  ⟨(process_line_bounds "alice".toList "a,b".toList).1 (by decide),
   (process_line_bounds "alice".toList "h,s,alice,e".toList).2.1
     "h".toList "s".toList "alice".toList ["e".toList] (by decide) rfl
     (by decide),
   (process_line_bounds "alice".toList "h,s,alice,e,d".toList).2.2 (by decide)⟩

/-- C10: on a well-formed line (at least five comma-separated fields) a
commit is retained exactly when the third field equals the author
argument, character for character; when it is retained it is built from
fields 0..4 of the line; and the author-email field (index 3) has no
influence on whether a record is retained. -/
theorem process_line_author_filter (author line : Str)
    (h5 : 5 ≤ (splitOnComma line).length) :
    ((∃ c, process_line author line = some (some c)) ↔
      (splitOnComma line).getD 2 [] = author) ∧
    (∀ f0 f1 f2 f3 f4 rest,
      splitOnComma line = f0 :: f1 :: f2 :: f3 :: f4 :: rest →
      f2 = author →
      process_line author line = some (some ⟨f0, f1, f2, f3, f4⟩)) ∧
    (∀ f0 f1 f2 f3 g3 f4 rest,
      ((∃ c, process_fields author (f0 :: f1 :: f2 :: f3 :: f4 :: rest) =
          some (some c)) ↔
       (∃ c, process_fields author (f0 :: f1 :: f2 :: g3 :: f4 :: rest) =
          some (some c)))) := by
  refine ⟨?_, ?_, ?_⟩
  · rcases hsp : splitOnComma line
      with _ | ⟨f0, _ | ⟨f1, _ | ⟨f2, _ | ⟨f3, _ | ⟨f4, rest⟩⟩⟩⟩⟩
    · rw [hsp] at h5
      simp only [List.length_nil, List.length_cons] at h5; omega
    · rw [hsp] at h5
      simp only [List.length_nil, List.length_cons] at h5; omega
    · rw [hsp] at h5
      simp only [List.length_nil, List.length_cons] at h5; omega
    · rw [hsp] at h5
      simp only [List.length_nil, List.length_cons] at h5; omega
    · rw [hsp] at h5
      simp only [List.length_nil, List.length_cons] at h5; omega
    · constructor
      · rintro ⟨c, hc⟩
        simp only [process_line, process_fields, hsp] at hc
        by_cases hf : f2 = author
        · simpa [List.getD_cons_succ, List.getD_cons_zero] using hf
        · simp [hf] at hc
      · intro hgetd
        have hf : f2 = author := by
          simpa [List.getD_cons_succ, List.getD_cons_zero] using hgetd
        exact ⟨⟨f0, f1, f2, f3, f4⟩,
          by simp [process_line, process_fields, hsp, hf]⟩
  · intro f0 f1 f2 f3 f4 rest hsp hf
    subst hf
    simp [process_line, process_fields, hsp]
  · intro f0 f1 f2 f3 g3 f4 rest
    by_cases hf : f2 = author <;> simp [process_fields, hf]

/-- Witness for C10 at a concrete well-formed matching line. -/
theorem process_line_author_filter_witness :
    process_line "alice".toList "h,s,alice,e,d".toList =
      some (some ⟨"h".toList, "s".toList, "alice".toList, "e".toList,
        "d".toList⟩) :=
  (process_line_author_filter "alice".toList "h,s,alice,e,d".toList
      (by decide)).2.1
    "h".toList "s".toList "alice".toList "e".toList "d".toList []
    (by decide) rfl
